import Mathlib

/-!
Verification of the iclogs log-query client, package
`internal/platform/logs` (file logs.go), against its specification.

The Go code is embedded shallowly:

* JSON values decoded by encoding/json into `any` become the inductive
  type `JVal` (JSON numbers decode to float64; here they are restricted
  to integral values exactly representable in a float64, carried as `Int`).
* Go maps `map[string]any` become association lists with first-match
  lookup (Go map keys are unique, so first-match agrees with map lookup).
* A Go function returning `(T, error)` becomes `Except GoErr T`; fmt
  error values built with fmt.Errorf are modeled structurally, one
  constructor per format string, wrapping preserved (`%w`).
* A Go computation that can panic (unchecked type assertion, index out
  of range) is modeled by the explicit outcome `panicked`.
* `time.Time` values are modeled as `Int` nanoseconds on a linear
  local-time axis; `time.Local` is modeled as a fixed-offset zone, under
  which `Time.Compare` coincides with comparison of these integers.
-/

namespace Iclogs

/-- JSON values as produced by Go json.Unmarshal into `any`:
string, float64, bool, nil, []any and map[string]any.
Numbers are restricted to integral float64 values, carried as `Int`. -/
inductive JVal where
  | str (s : String)
  | num (n : Int)
  | bool (b : Bool)
  | null
  | arr (elems : List JVal)
  | obj (fields : List (String × JVal))

/-- Lookup in a decoded JSON object, modeling Go map indexing `m[key]`.
Go maps have unique keys, so first-match lookup agrees with map access. -/
def lookupJ (m : List (String × JVal)) (key : String) : Option JVal :=
  match m with
  | [] => none
  | (k, v) :: rest => if k = key then some v else lookupJ rest key

/-- Drops trailing zero digits, as the Go shortest-float formatting does
for the mantissa of scientific notation. -/
def stripTrailingZeros (s : List Char) : List Char :=
  (s.reverse.dropWhile (· = '0')).reverse

/-- Scientific notation of strconv FormatFloat with verb g: mantissa with
a decimal point after the first digit, then "e+" and a two-digit-minimum
exponent, e.g. 1e+06 and 1.234567e+06. -/
def goFmtExp (sign : String) (mant : List Char) (e : Nat) : String :=
  let expStr := if e < 10 then "0" ++ toString e else toString e
  let m :=
    match mant with
    | [] => "0"
    | d :: rest => if rest.isEmpty then String.mk [d] else String.mk [d] ++ "." ++ String.mk rest
  sign ++ m ++ "e+" ++ expStr

/-- Go fmt verb v applied to a float64 holding the integral value n:
shortest-representation FormatFloat with verb g. For an integral value
the shortest digit string is its decimal digits with trailing zeros
stripped; the decimal point position dp is the digit count, and g picks
plain decimal exactly when dp - 1 < 6, scientific otherwise. Hence
999999 prints as "999999" but 1000000 prints as "1e+06". -/
def goFmtFloat (n : Int) : String :=
  if n = 0 then "0"
  else
    let a := n.natAbs
    let sign := if n < 0 then "-" else ""
    let ds := (toString a).toList
    if ds.length ≤ 6 then sign ++ toString a
    else goFmtExp sign (stripTrailingZeros ds) (ds.length - 1)

mutual
/-- Go fmt.Sprintf with verb v on a decoded JSON value: strings print
verbatim, bools as true/false, a nil interface as "<nil>", float64 via
shortest FormatFloat verb g, []any space-separated in brackets, and
map[string]any as map[k1:v1 k2:v2] with keys in sorted order (the fmt
package sorts map keys). -/
def goSprintV : JVal → String
  | .str s => s
  | .num n => goFmtFloat n
  | .bool b => if b then "true" else "false"
  | .null => "<nil>"
  | .arr es => "[" ++ String.intercalate " " (goSprintList es) ++ "]"
  | .obj fs =>
    "map[" ++ String.intercalate " " (((goSprintKVs fs).mergeSort (fun a b => a.1 ≤ b.1)).map Prod.snd) ++ "]"

/-- Renders each element of a decoded JSON array, in order. -/
def goSprintList : List JVal → List String
  | [] => []
  | v :: vs => goSprintV v :: goSprintList vs

/-- Renders each entry of a decoded JSON object as (key, "key:value");
the caller sorts by key as the fmt package does. -/
def goSprintKVs : List (String × JVal) → List (String × String)
  | [] => []
  | (k, v) :: kvs => (k, k ++ ":" ++ goSprintV v) :: goSprintKVs kvs
end

/-- Structural model of the error values this package builds with
fmt.Errorf; one constructor per format string, wrapping (%w) preserved.
cannotFindValue is "cannot find value for key: ..." from getValue;
keyNotFoundInMap is "key ... was not found in map" from traverseMap;
timeParseError stands for the error of time.ParseInLocation;
unmarshalError stands for a json.Unmarshal error message. -/
inductive GoErr where
  | cannotFindValue (key : String)
  | keyNotFoundInMap (key : String)
  | timeParseError (value : String)
  | cannotParseTimestamp (inner : GoErr)
  | cannotParseSeverity (inner : GoErr)
  | unmarshalError (msg : String)
  | cannotUnmarshalDataLine (inner : GoErr)
  | cannotParseRecord (inner : GoErr)
  | lineTooLong
deriving DecidableEq

/-- Outcome of a Go computation returning (string, error) that may also
panic: ok s is (s, nil); fail e is ("", e); panicked is a runtime panic
(unchecked type assertion or index out of range). -/
inductive TraverseResult where
  | ok (s : String)
  | fail (e : GoErr)
  | panicked

/-- traverseMap from logs.go lines 101 to 116. The Go code reads
keys[0] (an index-out-of-range panic on an empty slice), looks it up in
the map, errors if absent, stringifies with fmt Sprintf verb v when this
is the last key, and otherwise recurses through the UNCHECKED type
assertion v.(map[string]any), which panics whenever the intermediate
value is not a JSON object. -/
def traverseMap (m : List (String × JVal)) : List String → TraverseResult
  | [] => .panicked
  | [key] =>
    match lookupJ m key with
    | none => .fail (.keyNotFoundInMap key)
    | some v => .ok (goSprintV v)
  | key :: keys =>
    match lookupJ m key with
    | none => .fail (.keyNotFoundInMap key)
    | some (.obj o) => traverseMap o keys
    | some _ => .panicked

/-- MessageKeywords from logs.go line 74: the candidate message fields. -/
def MessageKeywords : List String := ["message", "message_obj.msg", "log"]

/-- Helper for splitDot: accumulates the current segment (reversed). -/
def splitDotAux : List Char → List Char → List String
  | [], acc => [String.mk acc.reverse]
  | c :: cs, acc =>
    if c = '.' then String.mk acc.reverse :: splitDotAux cs []
    else splitDotAux cs (c :: acc)

/-- Go strings.Split(k, ".") as called at logs.go line 132: splits at
every dot; an empty string yields the singleton of the empty string, so
the result is never the empty list. -/
def splitDot (s : String) : List String :=
  splitDotAux s.toList []

/-- The loop of GetMessage (logs.go lines 126 to 139): msg and err start
as "" and nil; each iteration overwrites both with the result of
traverseMap on the dot-split path, breaking on the first nil error; the
values of the final iteration are returned. A panic in traverseMap
propagates. -/
def getMessageLoop (ud : List (String × JVal)) : List String → TraverseResult
  | [] => .ok ""
  | [k] => traverseMap ud (splitDot k)
  | k :: ks =>
    match traverseMap ud (splitDot k) with
    | .ok s => .ok s
    | .panicked => .panicked
    | .fail _ => getMessageLoop ud ks

/-- GetMessage from logs.go lines 119 to 140, modeled after the
successful json.Unmarshal of the userData string into map[string]any:
the argument ud is the decoded tree. (The decode-failure branch at line
122 returns a wrapped unmarshal error and is not needed by any claim,
all of which assume a successfully decoded tree.) -/
def GetMessage (ud : List (String × JVal)) (keyNames : List String) : TraverseResult :=
  getMessageLoop ud keyNames

/-- KeyValue from logs.go lines 40 to 43. -/
structure KeyValue where
  Key : String
  Value : String
deriving DecidableEq

/-- Record from logs.go lines 51 to 55: one result entry with the raw
user_data string, metadata pairs and label pairs. -/
structure Record where
  Data : String
  Metadata : List KeyValue
  Labels : List KeyValue
deriving DecidableEq

/-- The inner result object of MessageResult (logs.go lines 57 to 61). -/
structure ResultSet where
  Results : List Record
deriving DecidableEq

/-- MessageResult from logs.go lines 57 to 61: the decoded payload of a
data line. -/
structure MessageResult where
  Result : ResultSet
deriving DecidableEq

/-- Log from logs.go lines 44 to 49. Time is the parsed timestamp on the
linear local-time axis (Int nanoseconds); time.Time.Compare corresponds
to integer comparison. -/
structure Log where
  Time : Int
  Severity : String
  UserData : String
  Labels : List String
deriving DecidableEq

/-- getValue from logs.go lines 90 to 99: scans the key/value list in
order and returns the value of the FIRST pair whose key matches exactly;
if none matches it returns the error naming the key. -/
def getValue (kv : List KeyValue) (key : String) : Except GoErr String :=
  match kv with
  | [] => .error (.cannotFindValue key)
  | v :: rest => if v.Key = key then .ok v.Value else getValue rest key

/-- Decimal digit value of a character, none for a non-digit. -/
def digitVal (c : Char) : Option Nat :=
  if c.isDigit then some (c.toNat - 48) else none

/-- Reads exactly n decimal digits (Go getnum with fixed width, used for
the zero-padded layout fields 2006, 01, 02, 04, 05). -/
def readFixed : Nat → List Char → Nat → Option (Nat × List Char)
  | 0, cs, acc => some (acc, cs)
  | n + 1, c :: cs, acc =>
    match digitVal c with
    | some d => readFixed n cs (acc * 10 + d)
    | none => none
  | _ + 1, [], _ => none

/-- Reads one or two decimal digits (Go getnum with fixed=false, used
for the non-padded hour field 15 of the layout). -/
def readHour (cs : List Char) : Option (Nat × List Char) :=
  match cs with
  | c1 :: c2 :: rest =>
    match digitVal c1, digitVal c2 with
    | some d1, some d2 => some (d1 * 10 + d2, rest)
    | some d1, none => some (d1, c2 :: rest)
    | none, _ => none
  | [c1] => (digitVal c1).map fun d => (d, [])
  | [] => none

/-- Consumes one expected literal layout character. -/
def expectChar (c : Char) (cs : List Char) : Option (List Char) :=
  match cs with
  | x :: rest => if x = c then some rest else none
  | [] => none

/-- Takes the maximal leading run of decimal digits. -/
def takeDigits : List Char → List Nat × List Char
  | [] => ([], [])
  | c :: cs =>
    match digitVal c with
    | some d =>
      let (ds, rest) := takeDigits cs
      (d :: ds, rest)
    | none => ([], c :: cs)

/-- Folds a digit list into the number it denotes. -/
def digitsToNat (ds : List Nat) : Nat :=
  ds.foldl (fun acc d => acc * 10 + d) 0

/-- Optional fractional second of the layout suffix .999999: Go consumes
a dot or comma followed by all consecutive digits (at most nine), and
the fraction is optional. Returns nanoseconds. -/
def readFrac (cs : List Char) : Option (Nat × List Char) :=
  match cs with
  | c :: c2 :: rest =>
    if (c = '.' ∨ c = ',') ∧ (digitVal c2).isSome then
      let (ds, rest2) := takeDigits (c2 :: rest)
      if 9 < ds.length then none
      else some (digitsToNat ds * 10 ^ (9 - ds.length), rest2)
    else some (0, cs)
  | _ => some (0, cs)

/-- Gregorian leap year rule, as in the Go time package. -/
def isLeapYear (y : Nat) : Bool :=
  y % 4 = 0 ∧ (y % 100 ≠ 0 ∨ y % 400 = 0)

/-- Length of a month, as the Go time package daysIn. -/
def daysInMonth (y m : Nat) : Nat :=
  if m = 2 then (if isLeapYear y then 29 else 28)
  else if m = 4 ∨ m = 6 ∨ m = 9 ∨ m = 11 then 30
  else 31

/-- Days from 1970-01-01 of a civil date (proleptic Gregorian), the
standard days-from-civil computation; gives the linear day number
underlying time.Time arithmetic. -/
def daysFromCivil (y m d : Nat) : Int :=
  let yy : Int := if m ≤ 2 then (y : Int) - 1 else (y : Int)
  let era : Int := Int.fdiv yy 400
  let yoe : Int := yy - era * 400
  let mp : Int := if 2 < m then (m : Int) - 3 else (m : Int) + 9
  let doy : Int := Int.fdiv (153 * mp + 2) 5 + (d : Int) - 1
  let doe : Int := yoe * 365 + Int.fdiv yoe 4 - Int.fdiv yoe 100 + doy
  era * 146097 + doe - 719468

/-- time.ParseInLocation with the fixed layout 2006-01-02T15:04:05.999999
(logs.go line 23) in time.Local, modeled as a fixed-offset zone: returns
nanoseconds on the linear local-time axis, or none on any parse failure.
Matches Go parsing of this layout: four-digit year, two-digit zero-padded
month, day, minute and second, one-or-two-digit hour, literal dashes, T
and colons, an optional fractional second of up to nine digits introduced
by a dot or comma, no trailing text, and range checks on month, day in
month, hour, minute and second. -/
def goParseTimestamp (s : String) : Option Int := do
  let cs := s.toList
  let (y, cs) ← readFixed 4 cs 0
  let cs ← expectChar '-' cs
  let (mo, cs) ← readFixed 2 cs 0
  let cs ← expectChar '-' cs
  let (d, cs) ← readFixed 2 cs 0
  let cs ← expectChar 'T' cs
  let (h, cs) ← readHour cs
  let cs ← expectChar ':' cs
  let (mi, cs) ← readFixed 2 cs 0
  let cs ← expectChar ':' cs
  let (sec, cs) ← readFixed 2 cs 0
  let (ns, cs) ← readFrac cs
  if cs ≠ [] then none
  else if mo < 1 ∨ 12 < mo then none
  else if d < 1 ∨ daysInMonth y mo < d then none
  else if 24 ≤ h ∨ 60 ≤ mi ∨ 60 ≤ sec then none
  else
    some ((daysFromCivil y mo d * 86400 + ((h * 3600 + mi * 60 + sec : Nat) : Int)) * 1000000000 + (ns : Int))

/-- Rendering of one label as in logs.go line 161, the Go format string
being percent-s colon quote percent-s quote. -/
def labelString (l : KeyValue) : String :=
  l.Key ++ ":\"" ++ l.Value ++ "\""

/-- parseRecord from logs.go lines 142 to 172: look up "timestamp" in the
metadata (wrapping a failure as cannot parse timestamp), then "severity"
(wrapping as cannot parse severity), then parse the timestamp string
(wrapping a failure as cannot parse timestamp), render the labels, and
build the Log with UserData taken verbatim from the Data field. -/
def parseRecord (record : Record) : Except GoErr Log :=
  match getValue record.Metadata "timestamp" with
  | .error e => .error (.cannotParseTimestamp e)
  | .ok timestamp =>
    match getValue record.Metadata "severity" with
    | .error e => .error (.cannotParseSeverity e)
    | .ok severity =>
      match goParseTimestamp timestamp with
      | none => .error (.cannotParseTimestamp (.timeParseError timestamp))
      | some t =>
        .ok { Time := t, Severity := severity, UserData := record.Data,
              Labels := record.Labels.map labelString }

/-- maxLineSize from logs.go line 30. -/
def maxLineSize : Nat := 2048 * 1024

/-- The inner loop over one data line (logs.go lines 197 to 206): each
result entry is parsed in order; the first failure aborts, wrapped as
cannot parse record from results. -/
def parseRecords : List Record → Except GoErr (List Log)
  | [] => .ok []
  | r :: rs =>
    match parseRecord r with
    | .error e => .error (.cannotParseRecord e)
    | .ok l =>
      match parseRecords rs with
      | .error e => .error e
      | .ok ls => .ok (l :: ls)

/-- The ordering of the final sort (logs.go line 215): the Go less
function is Time.Compare < 0; its reflexive closure is this total
preorder on times. -/
def timeLe : Log → Log → Prop := fun a b => a.Time ≤ b.Time

instance : DecidableRel timeLe := fun a b => Int.decLe a.Time b.Time

instance : IsTotal Log timeLe := ⟨fun a b => Int.le_total a.Time b.Time⟩

instance : IsTrans Log timeLe := ⟨fun _ _ _ h1 h2 => Int.le_trans h1 h2⟩

/-- The final sort of logs.go line 215, sort.Slice by ascending Time.
Modeled by a sorting function with the matching total preorder: any
correct sorting algorithm yields output sorted by Time that is a
permutation of the input, and whenever the Time keys are pairwise
distinct that output is unique, so the model agrees with sort.Slice on
every input with distinct keys. (sort.Slice gives NO guarantee on the
relative order of equal keys; no theorem below relies on the tie order
of this model.) -/
def sortLogs (logs : List Log) : List Log :=
  logs.insertionSort timeLe

/-- Byte length of a character list under UTF-8, as the bufio scanner
counts line bytes. -/
def utf8Len : List Char → Nat
  | [] => 0
  | c :: cs => c.utf8Size + utf8Len cs

/-- Byte length of a line, Go len(line) on the scanned token. -/
def goByteLen (s : String) : Nat :=
  utf8Len s.toList

/-- Bool test that the second list starts with the first. -/
def startsWithChars : List Char → List Char → Bool
  | [], _ => true
  | _ :: _, [] => false
  | p :: ps, c :: cs => decide (p = c) && startsWithChars ps cs

/-- Go strings.HasPrefix(line, "data: ") as used at logs.go line 186. -/
def isDataLine (line : String) : Bool :=
  startsWithChars "data: ".toList line.toList

/-- Go line[len("data: "):], dropping the six prefix characters (all
ASCII, so character count equals byte count). -/
def goDropPrefix6 (line : String) : String :=
  String.mk (line.toList.drop 6)

/-- One pass of the scanner loop of parseResponse (logs.go lines 183 to
216), over the stream already split at newlines, carrying the logs
accumulator. A line longer than maxLineSize bytes makes bufio Scan stop
with ErrTooLong, which surfaces through scanner.Err after the loop as
the returned error with a nil slice, so processing aborts at that line
with no records. Other lines: a line without the "data: " prefix is
skipped; otherwise the rest of the line is unmarshaled (failure aborts,
wrapped as cannot unmarshal data line payload) and each result entry is
parsed and appended. At end of stream the accumulated records are
sorted. The unmarshal argument abstracts json.Unmarshal into
MessageResult for the payload string. -/
def parseResponseLoop (unmarshal : String → Except String MessageResult) :
    List String → List Log → Except GoErr (List Log)
  | [], acc => .ok (sortLogs acc)
  | line :: rest, acc =>
    if maxLineSize < goByteLen line then .error .lineTooLong
    else if ¬ isDataLine line then parseResponseLoop unmarshal rest acc
    else
      match unmarshal (goDropPrefix6 line) with
      | .error msg => .error (.cannotUnmarshalDataLine (.unmarshalError msg))
      | .ok data =>
        match parseRecords data.Result.Results with
        | .error e => .error e
        | .ok ls => parseResponseLoop unmarshal rest (acc ++ ls)

/-- parseResponse from logs.go lines 174 to 218, on the stream given as
its list of lines, starting from the empty accumulator. -/
def parseResponse (unmarshal : String → Except String MessageResult)
    (lines : List String) : Except GoErr (List Log) :=
  parseResponseLoop unmarshal lines []

/-- QuerySpec from logs.go lines 32 to 38. The Syntax and Tier string
types are carried as strings; the time.Time fields are carried as Int
with 0 standing for the zero time.Time (the CLI never builds the instant
numbered 0 otherwise). -/
structure QuerySpec where
  Syntax : String
  Limit : Int
  Tier : String
  StartDate : Int
  EndDate : Int
deriving DecidableEq

/-- The zero QuerySpec, Go QuerySpec{}. -/
def zeroQuerySpec : QuerySpec :=
  { Syntax := "", Limit := 0, Tier := "", StartDate := 0, EndDate := 0 }

/-- A value stored in the request metadata map: a string (Syntax, Tier),
an int (Limit), or a time.Time (StartDate, EndDate; serialized by the
time package MarshalJSON, kept abstract here). -/
inductive MetaVal where
  | str (s : String)
  | int (n : Int)
  | timeVal (t : Int)
deriving DecidableEq

/-- A value of the marshaled request body object: the query string, the
null from a nil metadata map pointer, or the metadata object. -/
inductive BodyVal where
  | str (s : String)
  | null
  | obj (fields : List (String × MetaVal))
deriving DecidableEq

/-- structToMap from logs.go lines 76 to 88 composed with the key order
of the wire object: the Go function iterates the struct fields in
declaration order, skips any field whose reflect IsZero holds, and
stores the rest in a map keyed by the json tag; encoding/json then
marshals map keys in sorted order, so the wire object lists the present
fields sorted: end_date, limit, start_date, syntax, tier. -/
def structToMap (spec : QuerySpec) : List (String × MetaVal) :=
  (if spec.EndDate = 0 then [] else [("end_date", .timeVal spec.EndDate)]) ++
  (if spec.Limit = 0 then [] else [("limit", .int spec.Limit)]) ++
  (if spec.StartDate = 0 then [] else [("start_date", .timeVal spec.StartDate)]) ++
  (if spec.Syntax = "" then [] else [("syntax", .str spec.Syntax)]) ++
  (if spec.Tier = "" then [] else [("tier", .str spec.Tier)])

/-- The JSON body built by QueryLogs (logs.go lines 220 to 236), as the
ordered field list of the marshaled Query struct: the query field, then
the metadata field, which is null when spec equals QuerySpec{} (the
Metadata pointer stays nil and the field has NO omitempty option, so
encoding/json emits it as null), and otherwise the map filled by
structToMap. -/
def queryBody (query : String) (spec : QuerySpec) : List (String × BodyVal) :=
  [("query", .str query),
   ("metadata", if spec = zeroQuerySpec then BodyVal.null else BodyVal.obj (structToMap spec))]

/-- Successful key-path resolution, the reference notion of section 4.1
of the specification: walking the tree along the path, stepping only
through objects, and reaching the value at the final segment. -/
def pathLookup (m : List (String × JVal)) : List String → Option JVal
  | [] => none
  | [k] => lookupJ m k
  | k :: ks =>
    match lookupJ m k with
    | some (.obj o) => pathLookup o ks
    | _ => none

/-- A stream line that the scanner loop of parseResponse processes
without aborting: within the size bound, and if it is a data line then
its payload unmarshals and all its result entries parse. -/
def lineOk (u : String → Except String MessageResult) (line : String) : Prop :=
  goByteLen line ≤ maxLineSize ∧
  (isDataLine line →
    ∃ mr ls, u (goDropPrefix6 line) = .ok mr ∧ parseRecords mr.Result.Results = .ok ls)

/-- Demo result entry: timestamp 2025-01-11T18:52:23.025000, severity
Info, raw user data preserved. -/
def recInfo : Record :=
  { Data := "\x7b\"message\":\"hello\"\x7d",
    Metadata := [{ Key := "timestamp", Value := "2025-01-11T18:52:23.025000" },
                 { Key := "severity", Value := "Info" }],
    Labels := [] }

/-- Demo result entry two seconds earlier, severity Debug. -/
def recDebug : Record :=
  { Data := "{}",
    Metadata := [{ Key := "timestamp", Value := "2025-01-11T18:52:21" },
                 { Key := "severity", Value := "Debug" }],
    Labels := [] }

/-- The Log that parseRecord produces from recInfo. -/
def logInfo : Log :=
  { Time := 1736621543025000000, Severity := "Info",
    UserData := "\x7b\"message\":\"hello\"\x7d", Labels := [] }

/-- The Log that parseRecord produces from recDebug. -/
def logDebug : Log :=
  { Time := 1736621541000000000, Severity := "Debug", UserData := "{}", Labels := [] }

/-- A concrete stand-in for json.Unmarshal used by the witnesses: the
payload LATE decodes to a batch holding recInfo, EARLY to one holding
recDebug, anything else is a decode error. -/
def demoUnmarshal : String → Except String MessageResult := fun s =>
  if s = "LATE" then .ok { Result := { Results := [recInfo] } }
  else if s = "EARLY" then .ok { Result := { Results := [recDebug] } }
  else .error "invalid payload"

/-- A demo stream whose later data line carries the earlier timestamp. -/
def demoLines : List String := ["data: LATE", ": success", "data: EARLY"]

/-- The records of demoLines in ascending time order. -/
def demoLogs : List Log := [logDebug, logInfo]

/-- A line one byte over the maximum line size. -/
def longLine : String := String.mk (List.replicate (maxLineSize + 1) 'a')

/-- A concrete non-default QuerySpec as the command front end builds it. -/
def demoSpec : QuerySpec :=
  { Syntax := "lucene", Limit := 50000, Tier := "archive",
    StartDate := 1736618000000000000, EndDate := 1736621600000000000 }

/-- getValue returns the error naming the key when no pair carries it. -/
theorem getValue_missing (kv : List KeyValue) (key : String)
    (h : ∀ p ∈ kv, p.Key ≠ key) :
    getValue kv key = .error (.cannotFindValue key) := by
  induction kv with
  | nil => rfl
  | cons p rest ih =>
    have hp := h p (List.mem_cons_self p rest)
    simp only [getValue, if_neg hp]
    exact ih fun q hq => h q (List.mem_cons_of_mem p hq)

/-- getValue returns the value of the first matching pair. -/
theorem getValue_first (kv1 kv2 : List KeyValue) (key v : String)
    (h : ∀ p ∈ kv1, p.Key ≠ key) :
    getValue (kv1 ++ { Key := key, Value := v } :: kv2) key = .ok v := by
  induction kv1 with
  | nil => simp [getValue]
  | cons p rest ih =>
    have hp := h p (List.mem_cons_self p rest)
    simp only [List.cons_append, getValue, if_neg hp]
    exact ih fun q hq => h q (List.mem_cons_of_mem p hq)

/-- Claim C10: for every decoded user-data object, GetMessage called
with an empty sequence of candidate key paths returns the empty string
with no error: the loop body never runs, so the initial values msg
empty and err nil are returned, reporting success although no path was
resolved. -/
theorem getMessage_empty_path_list (ud : List (String × JVal)) :
    GetMessage ud [] = .ok "" := rfl

/-- Claim C2 (refuted, code bug): key-path resolution is NOT total. On
the tree from user data where message_obj holds the string "hi", the
path message_obj.msg reaches a non-object intermediate value and the
unchecked type assertion v.(map[string]any) at logs.go line 114 panics;
GetMessage with the default keyword list therefore panics instead of
moving on to the next candidate path. -/
theorem traverseMap_panics_on_nonobject :
    traverseMap [("message_obj", JVal.str "hi")] ["message_obj", "msg"] = .panicked ∧
    GetMessage [("message_obj", JVal.str "hi")] MessageKeywords = .panicked :=
  ⟨rfl, rfl⟩

/-- Claim C5: every Log produced by parseRecord carries in UserData the
exact user_data string of its source Record, byte for byte. -/
theorem parseRecord_userData_verbatim (r : Record) (log : Log)
    (h : parseRecord r = .ok log) : log.UserData = r.Data := by
  unfold parseRecord at h
  split at h
  · exact absurd h (by simp)
  · split at h
    · exact absurd h (by simp)
    · split at h
      · exact absurd h (by simp)
      · injection h with h
        subst h
        rfl

/-- Witness for parseRecord_userData_verbatim at a concrete record. -/
theorem parseRecord_userData_verbatim_witness :
    parseRecord recInfo = .ok logInfo ∧ logInfo.UserData = recInfo.Data :=
  ⟨rfl, parseRecord_userData_verbatim recInfo logInfo rfl⟩

/-- Claim C7: metadata lookup is by exact key with the first occurrence
winning on duplicates; a missing "timestamp" key makes parseRecord fail
with the wrapped error naming timestamp, and a missing "severity" key
(with the timestamp lookup succeeding) with the wrapped error naming
severity, producing no Log record. -/
theorem record_metadata_lookup_spec :
    (∀ (kv1 kv2 : List KeyValue) (key v : String), (∀ p ∈ kv1, p.Key ≠ key) →
        getValue (kv1 ++ { Key := key, Value := v } :: kv2) key = .ok v) ∧
    (∀ (kv : List KeyValue) (key : String), (∀ p ∈ kv, p.Key ≠ key) →
        getValue kv key = .error (.cannotFindValue key)) ∧
    (∀ r : Record, (∀ p ∈ r.Metadata, p.Key ≠ "timestamp") →
        parseRecord r = .error (.cannotParseTimestamp (.cannotFindValue "timestamp"))) ∧
    (∀ (r : Record) (ts : String), getValue r.Metadata "timestamp" = .ok ts →
        (∀ p ∈ r.Metadata, p.Key ≠ "severity") →
        parseRecord r = .error (.cannotParseSeverity (.cannotFindValue "severity"))) := by
  refine ⟨getValue_first, getValue_missing, ?_, ?_⟩
  · intro r h
    unfold parseRecord
    rw [getValue_missing r.Metadata "timestamp" h]
  · intro r ts hts h
    unfold parseRecord
    rw [hts, getValue_missing r.Metadata "severity" h]

/-- Witness for record_metadata_lookup_spec: a duplicated timestamp key
resolves to its first occurrence, and records missing the timestamp or
the severity key fail with the error naming that key. -/
theorem record_metadata_lookup_spec_witness :
    getValue [{ Key := "severity", Value := "Info" }, { Key := "timestamp", Value := "A" },
              { Key := "timestamp", Value := "B" }] "timestamp" = .ok "A" ∧
    parseRecord { Data := "", Metadata := [{ Key := "severity", Value := "Info" }], Labels := [] } =
      .error (.cannotParseTimestamp (.cannotFindValue "timestamp")) ∧
    parseRecord { Data := "", Metadata := [{ Key := "timestamp", Value := "T" }], Labels := [] } =
      .error (.cannotParseSeverity (.cannotFindValue "severity")) := by
  refine ⟨?_, ?_, ?_⟩
  · exact record_metadata_lookup_spec.1 [{ Key := "severity", Value := "Info" }]
      [{ Key := "timestamp", Value := "B" }] "timestamp" "A" (by decide)
  · exact record_metadata_lookup_spec.2.2.1 _ (by decide)
  · exact record_metadata_lookup_spec.2.2.2 _ "T" rfl (by decide)

/-- Claim C9 (refuted): a resolved terminal JSON null is stringified by
fmt Sprintf verb v as "<nil>", not as the literal text null, and an
integral number of seven digits is stringified in scientific notation,
not in its decimal form. -/
theorem traverseMap_stringify_counterexample :
    traverseMap [("a", JVal.null)] ["a"] = .ok "<nil>" ∧ "<nil>" ≠ "null" ∧
    traverseMap [("b", JVal.num 1000000)] ["b"] = .ok "1e+06" ∧ "1e+06" ≠ "1000000" :=
  ⟨rfl, by decide, rfl, by decide⟩

/-- Claim C8 (refuted): with an all-default QuerySpec the marshaled body
DOES contain the metadata key, bound to null, because the Metadata
pointer field carries no omitempty option. -/
theorem queryBody_default_spec_counterexample :
    queryBody "logs" zeroQuerySpec = [("query", BodyVal.str "logs"), ("metadata", BodyVal.null)] ∧
    List.lookup "metadata" (queryBody "logs" zeroQuerySpec) = some BodyVal.null :=
  ⟨rfl, rfl⟩

/-- Membership in a conditionally empty singleton list. -/
theorem mem_ite_nil_singleton {α : Type} (c : Prop) [Decidable c] (x p : α) :
    (p ∈ if c then ([] : List α) else [x]) ↔ ¬ c ∧ p = x := by
  split_ifs with h <;> simp [h]

/-- Claim C8 as amended: an all-default QuerySpec produces a body whose
metadata key is present with value null (the nil map pointer has no
omitempty option); a non-default spec produces a metadata object holding
exactly the non-default fields under their wire names. -/
theorem queryBody_fields :
    (∀ q : String, queryBody q zeroQuerySpec =
        [("query", BodyVal.str q), ("metadata", BodyVal.null)]) ∧
    (∀ (q : String) (spec : QuerySpec), spec ≠ zeroQuerySpec →
        queryBody q spec =
          [("query", BodyVal.str q), ("metadata", BodyVal.obj (structToMap spec))]) ∧
    (∀ (spec : QuerySpec) (key : String) (mv : MetaVal),
        (key, mv) ∈ structToMap spec ↔
          (key = "end_date" ∧ mv = .timeVal spec.EndDate ∧ spec.EndDate ≠ 0) ∨
          (key = "limit" ∧ mv = .int spec.Limit ∧ spec.Limit ≠ 0) ∨
          (key = "start_date" ∧ mv = .timeVal spec.StartDate ∧ spec.StartDate ≠ 0) ∨
          (key = "syntax" ∧ mv = .str spec.Syntax ∧ spec.Syntax ≠ "") ∨
          (key = "tier" ∧ mv = .str spec.Tier ∧ spec.Tier ≠ "")) := by
  refine ⟨fun q => by simp [queryBody], fun q spec h => by simp [queryBody, h], ?_⟩
  intro spec key mv
  simp only [structToMap, List.mem_append, mem_ite_nil_singleton, Prod.mk.injEq]
  tauto

/-- Witness for queryBody_fields at the concrete spec the command front
end builds. -/
theorem queryBody_fields_witness :
    demoSpec ≠ zeroQuerySpec ∧
    queryBody "error" demoSpec =
      [("query", BodyVal.str "error"), ("metadata", BodyVal.obj (structToMap demoSpec))] :=
  ⟨by decide, queryBody_fields.2.1 "error" demoSpec (by decide)⟩

/-- Every key path that resolves (stepping only through objects) makes
traverseMap return the resolved value stringified by fmt verb v. -/
theorem traverseMap_of_pathLookup (keys : List String) :
    ∀ (m : List (String × JVal)) (v : JVal), pathLookup m keys = some v →
      traverseMap m keys = .ok (goSprintV v) := by
  induction keys with
  | nil => intro m v h; exact absurd h (by simp [pathLookup])
  | cons k ks ih =>
    intro m v h
    cases ks with
    | nil =>
      simp only [pathLookup] at h
      simp only [traverseMap, h]
    | cons k2 ks2 =>
      simp only [pathLookup] at h
      cases hl : lookupJ m k with
      | none =>
        simp only [hl] at h
        exact absurd h (by simp)
      | some w =>
        simp only [hl] at h
        cases w with
        | obj o =>
          simp only [traverseMap, hl]
          exact ih o v h
        | str s => simp at h
        | num n => simp at h
        | bool b => simp at h
        | null => simp at h
        | arr es => simp at h

/-- Claim C9 as amended: a fully resolving key path yields the terminal
value stringified by Go fmt verb v: strings verbatim, booleans as true
and false, null as the text "<nil>" (not "null"), and numbers in the
shortest FormatFloat form with verb g, which is the plain decimal form
exactly when the value has at most six decimal digits, and scientific
notation otherwise (1000000 prints as "1e+06"). -/
theorem traverseMap_stringifies_resolved :
    (∀ (m : List (String × JVal)) (keys : List String) (v : JVal),
        pathLookup m keys = some v → traverseMap m keys = .ok (goSprintV v)) ∧
    goSprintV JVal.null = "<nil>" ∧
    (∀ b, goSprintV (JVal.bool b) = if b then "true" else "false") ∧
    (∀ s, goSprintV (JVal.str s) = s) ∧
    (∀ n : Int, n ≠ 0 → (toString n.natAbs).length ≤ 6 →
        goSprintV (JVal.num n) = (if n < 0 then "-" else "") ++ toString n.natAbs) ∧
    goSprintV (JVal.num 0) = "0" ∧
    goSprintV (JVal.num 1000000) = "1e+06" := by
  refine ⟨fun m keys v => traverseMap_of_pathLookup keys m v, rfl, fun b => rfl, fun s => rfl,
    ?_, rfl, rfl⟩
  intro n hn hlen
  simp only [goSprintV, goFmtFloat, if_neg hn]
  rw [if_pos (show (toString n.natAbs).toList.length ≤ 6 from hlen)]

/-- Witness for traverseMap_stringifies_resolved: a nested path resolves
to a string printed verbatim, and a six-digit number prints decimally. -/
theorem traverseMap_stringifies_resolved_witness :
    pathLookup [("message_obj", JVal.obj [("msg", JVal.str "Y")])] ["message_obj", "msg"] =
      some (JVal.str "Y") ∧
    traverseMap [("message_obj", JVal.obj [("msg", JVal.str "Y")])] ["message_obj", "msg"] =
      .ok (goSprintV (JVal.str "Y")) ∧
    goSprintV (JVal.num 123456) = "123456" := by
  refine ⟨rfl, traverseMap_stringifies_resolved.1 _ _ _ rfl, ?_⟩
  have h := traverseMap_stringifies_resolved.2.2.2.2.1 (123456 : Int) (by decide) (by decide)
  exact h.trans (by rfl)

/-- Processing a candidate path whose traverseMap succeeds returns its
string, whatever follows in the list. -/
theorem getMessageLoop_head_ok (ud : List (String × JVal)) (k : String) (ks : List String)
    (s : String) (h : traverseMap ud (splitDot k) = .ok s) :
    getMessageLoop ud (k :: ks) = .ok s := by
  cases ks with
  | nil => simpa only [getMessageLoop] using h
  | cons a t => simp only [getMessageLoop, h]

/-- Candidate paths that fail with an error are skipped by the loop. -/
theorem getMessageLoop_append_failures (ud : List (String × JVal)) (rest : List String)
    (hne : rest ≠ []) :
    ∀ ks1 : List String, (∀ k ∈ ks1, ∃ e, traverseMap ud (splitDot k) = .fail e) →
      getMessageLoop ud (ks1 ++ rest) = getMessageLoop ud rest := by
  intro ks1
  induction ks1 with
  | nil => intro _; rfl
  | cons a t ih =>
    intro h
    obtain ⟨e, he⟩ := h a (List.mem_cons_self a t)
    have htail := ih fun k hk => h k (List.mem_cons_of_mem a hk)
    obtain ⟨b, bs, hb⟩ : ∃ b bs, t ++ rest = b :: bs := by
      cases htr : t ++ rest with
      | nil => exact absurd (List.append_eq_nil.mp htr).2 hne
      | cons b bs => exact ⟨b, bs, rfl⟩
    calc getMessageLoop ud ((a :: t) ++ rest)
        = getMessageLoop ud (a :: b :: bs) := by rw [List.cons_append, hb]
      _ = getMessageLoop ud (b :: bs) := by simp only [getMessageLoop, he]
      _ = getMessageLoop ud rest := by rw [← hb, htail]

/-- A GetMessage failure means every candidate path failed, and the
surfaced error is that of the last path in the list. -/
theorem getMessage_fail_all (ud : List (String × JVal)) :
    ∀ (ks : List String) (e : GoErr), GetMessage ud ks = .fail e →
      (∀ k ∈ ks, ∃ e2, traverseMap ud (splitDot k) = .fail e2) ∧
      ∃ kinit klast, ks = kinit ++ [klast] ∧ traverseMap ud (splitDot klast) = .fail e := by
  intro ks
  induction ks with
  | nil => intro e h; exact absurd h (by simp [GetMessage, getMessageLoop])
  | cons k t ih =>
    intro e h
    cases htr : traverseMap ud (splitDot k) with
    | ok s =>
      rw [GetMessage] at h
      rw [getMessageLoop_head_ok ud k t s htr] at h
      exact absurd h (by simp)
    | panicked =>
      exfalso
      cases t with
      | nil =>
        rw [GetMessage, getMessageLoop, htr] at h
        exact absurd h (by simp)
      | cons a t2 =>
        rw [GetMessage] at h
        simp only [getMessageLoop, htr] at h
        exact absurd h (by simp)
    | fail e2 =>
      cases t with
      | nil =>
        rw [GetMessage, getMessageLoop, htr] at h
        injection h with h
        subst h
        refine ⟨?_, [], k, rfl, htr⟩
        intro k2 hk2
        rw [List.mem_singleton] at hk2
        subst hk2
        exact ⟨e2, htr⟩
      | cons a t2 =>
        have hh : getMessageLoop ud (k :: a :: t2) = getMessageLoop ud (a :: t2) := by
          simp only [getMessageLoop, htr]
        rw [GetMessage, hh] at h
        obtain ⟨hall, kinit, klast, hks, hlast⟩ := ih e h
        refine ⟨?_, k :: kinit, klast, by rw [List.cons_append, ← hks], hlast⟩
        intro k2 hk2
        rcases List.mem_cons.mp hk2 with rfl | hk2
        · exact ⟨e2, htr⟩
        · exact hall k2 hk2

/-- Claim C6: GetMessage tries the candidate paths in order, returning
the string of the first path that resolves; it fails only when every
path fails, surfacing the error of the last path; and on the three
concrete examples of the specification it returns "X", returns "Y", and
fails with the not-found error. -/
theorem getMessage_ordered_fallback :
    (∀ (ud : List (String × JVal)) (ks1 : List String) (k : String) (ks2 : List String)
        (s : String),
        (∀ k2 ∈ ks1, ∃ e, traverseMap ud (splitDot k2) = .fail e) →
        traverseMap ud (splitDot k) = .ok s →
        GetMessage ud (ks1 ++ k :: ks2) = .ok s) ∧
    (∀ (ud : List (String × JVal)) (ks : List String) (e : GoErr),
        GetMessage ud ks = .fail e →
        (∀ k ∈ ks, ∃ e2, traverseMap ud (splitDot k) = .fail e2) ∧
        ∃ kinit klast, ks = kinit ++ [klast] ∧ traverseMap ud (splitDot klast) = .fail e) ∧
    GetMessage [("message", JVal.str "X")] ["message"] = .ok "X" ∧
    GetMessage [("message_obj", JVal.obj [("msg", JVal.str "Y")])]
      ["message_obj.msg", "message", "log"] = .ok "Y" ∧
    GetMessage [("message", JVal.str "X")] ["message_obj.msg"] =
      .fail (.keyNotFoundInMap "message_obj") := by
  refine ⟨?_, fun ud => getMessage_fail_all ud, rfl, rfl, rfl⟩
  intro ud ks1 k ks2 s hfail hok
  rw [GetMessage, getMessageLoop_append_failures ud (k :: ks2) (by simp) ks1 hfail]
  exact getMessageLoop_head_ok ud k ks2 s hok

/-- Witness for getMessage_ordered_fallback: with a failing first path
the second resolving path wins, and a failing single path reports
failure of every path. -/
theorem getMessage_ordered_fallback_witness :
    (∀ k2 ∈ ["message"], ∃ e, traverseMap [("log", JVal.str "Z")] (splitDot k2) = .fail e) ∧
    traverseMap [("log", JVal.str "Z")] (splitDot "log") = .ok "Z" ∧
    GetMessage [("log", JVal.str "Z")] (["message"] ++ "log" :: []) = .ok "Z" ∧
    (∀ k ∈ ["message_obj.msg"],
        ∃ e2, traverseMap [("message", JVal.str "X")] (splitDot k) = .fail e2) := by
  have h1 : ∀ k2 ∈ ["message"], ∃ e, traverseMap [("log", JVal.str "Z")] (splitDot k2) = .fail e := by
    intro k2 hk2
    rw [List.mem_singleton] at hk2
    subst hk2
    exact ⟨.keyNotFoundInMap "message", rfl⟩
  refine ⟨h1, rfl, getMessage_ordered_fallback.1 _ ["message"] "log" [] "Z" h1 rfl, ?_⟩
  exact (getMessage_ordered_fallback.2.1 [("message", JVal.str "X")] ["message_obj.msg"]
    (.keyNotFoundInMap "message_obj") rfl).1

/-- Every successful parseResponse result is the sort of some
accumulated record list. -/
theorem parseResponseLoop_ok_eq_sorted (u : String → Except String MessageResult) :
    ∀ (lines : List String) (acc logs : List Log),
      parseResponseLoop u lines acc = .ok logs → ∃ l, logs = sortLogs l := by
  intro lines
  induction lines with
  | nil =>
    intro acc logs h
    simp only [parseResponseLoop] at h
    injection h with h
    exact ⟨acc, h.symm⟩
  | cons line rest ih =>
    intro acc logs h
    simp only [parseResponseLoop] at h
    split at h
    · exact absurd h (by simp)
    · split at h
      · exact ih acc logs h
      · split at h
        · exact absurd h (by simp)
        · split at h
          · exact absurd h (by simp)
          · exact ih _ logs h

/-- Claim C1: whenever parseResponse succeeds and its records carry
pairwise-distinct timestamps, the returned sequence is sorted in
strictly ascending order of the Time field, regardless of the arrival
order of the entries in the stream. -/
theorem parseResponse_sorted_by_time (u : String → Except String MessageResult)
    (lines : List String) (logs : List Log)
    (hok : parseResponse u lines = .ok logs)
    (hdist : logs.Pairwise fun a b => a.Time ≠ b.Time) :
    logs.Pairwise fun a b => a.Time < b.Time := by
  obtain ⟨l, rfl⟩ := parseResponseLoop_ok_eq_sorted u lines [] logs hok
  have hs : (sortLogs l).Pairwise timeLe := List.sorted_insertionSort timeLe l
  exact (hs.and hdist).imp fun h => lt_of_le_of_ne h.1 h.2

/-- Witness for parseResponse_sorted_by_time: in demoLines the later
record arrives first, and the output is reordered ascending. -/
theorem parseResponse_sorted_by_time_witness :
    parseResponse demoUnmarshal demoLines = .ok demoLogs ∧
    demoLogs.Pairwise (fun a b => a.Time ≠ b.Time) ∧
    demoLogs.Pairwise (fun a b => a.Time < b.Time) :=
  ⟨rfl, by decide, parseResponse_sorted_by_time demoUnmarshal demoLines demoLogs rfl (by decide)⟩

/-- Reaching a line over the size bound aborts the parse with the
line-too-long error, whatever was accumulated before. -/
theorem parseResponseLoop_tooLong (u : String → Except String MessageResult)
    (long : String) (post : List String) (hlong : maxLineSize < goByteLen long) :
    ∀ pre : List String, (∀ l ∈ pre, lineOk u l) → ∀ acc,
      parseResponseLoop u (pre ++ long :: post) acc = .error .lineTooLong := by
  intro pre
  induction pre with
  | nil =>
    intro _ acc
    simp only [List.nil_append, parseResponseLoop, if_pos hlong]
  | cons l rest ih =>
    intro h acc
    obtain ⟨hsize, hdata⟩ := h l (List.mem_cons_self l rest)
    have hrest := fun x hx => h x (List.mem_cons_of_mem l hx)
    simp only [List.cons_append, parseResponseLoop]
    rw [if_neg (by omega)]
    by_cases hd : isDataLine l
    · obtain ⟨mr, ls, hu, hr⟩ := hdata hd
      rw [if_neg (not_not_intro hd)]
      simp only [hu, hr]
      exact ih hrest (acc ++ ls)
    · rw [if_pos hd]
      exact ih hrest acc

/-- Claim C4: a stream with a line longer than the maximum line size
makes parseResponse fail with the line-too-long error and return no
records at all, even when every earlier line is valid and decodable. -/
theorem parseResponse_tooLong_discards (u : String → Except String MessageResult)
    (pre post : List String) (long : String)
    (hpre : ∀ l ∈ pre, lineOk u l)
    (hlong : maxLineSize < goByteLen long) :
    parseResponse u (pre ++ long :: post) = .error .lineTooLong :=
  parseResponseLoop_tooLong u long post hlong pre hpre []

/-- The UTF-8 byte length of n repetitions of the letter a is n. -/
theorem utf8Len_replicate (n : Nat) : utf8Len (List.replicate n 'a') = n := by
  induction n with
  | zero => rfl
  | succ n ih =>
    rw [List.replicate_succ]
    show 'a'.utf8Size + utf8Len (List.replicate n 'a') = n + 1
    rw [ih, show 'a'.utf8Size = 1 from rfl]
    omega

/-- Witness for parseResponse_tooLong_discards: a valid decodable data
line precedes a line one byte over the bound. -/
theorem parseResponse_tooLong_discards_witness :
    (∀ l ∈ ["data: EARLY"], lineOk demoUnmarshal l) ∧
    maxLineSize < goByteLen longLine ∧
    parseResponse demoUnmarshal (["data: EARLY"] ++ longLine :: ["data: LATE"]) =
      .error .lineTooLong := by
  have h1 : ∀ l ∈ ["data: EARLY"], lineOk demoUnmarshal l := by
    intro l hl
    rw [List.mem_singleton] at hl
    subst hl
    exact ⟨by decide, fun _ => ⟨{ Result := { Results := [recDebug] } }, [logDebug], rfl, rfl⟩⟩
  have h2 : maxLineSize < goByteLen longLine := by
    show maxLineSize < utf8Len (String.mk (List.replicate (maxLineSize + 1) 'a')).toList
    rw [show (String.mk (List.replicate (maxLineSize + 1) 'a')).toList =
      List.replicate (maxLineSize + 1) 'a' from rfl]
    rw [utf8Len_replicate]
    omega
  exact ⟨h1, h2, parseResponse_tooLong_discards demoUnmarshal _ _ _ h1 h2⟩

end Iclogs
